import Mathlib

/-!
Verification of the AI-Speech-Analyzer pipeline: a shallow embedding of
`src/app.py`, `src/qa_system.py`, `src/utils/transcribe.py` and
`src/utils/extract_info.py`, together with theorems settling the frozen
claims about the orchestration pipeline, the progress-reporting contract,
the entity-extraction regexes, the question-answering wrapper and the
temporary-file cleanup discipline.
-/

namespace SpeechAnalyzer

/-! ### Character classes of the two regexes in `src/utils/extract_info.py`

`phone_regex  = re.compile(r'[\+\(]?[0-9][0-9\-\(\)\s]{8,}[0-9]')`
`email_regex  = re.compile(r'[a-zA-Z0-9._%+-]+@[a-zA-Z0-9.-]+\.[a-zA-Z]{2,}')`
-/

/-- Python `\s` on the ASCII range: space, tab, newline, carriage return,
vertical tab, form feed. -/
def pyIsSpace (c : Char) : Bool :=
  c = ' ' || c = '\t' || c = '\n' || c = '\r' || c = '\x0b' || c = '\x0c'

/-- The character class `[0-9\-\(\)\s]` of the phone regex. -/
def isPhoneClass (c : Char) : Bool :=
  c.isDigit || c = '-' || c = '(' || c = ')' || pyIsSpace c

/-- The character class `[a-zA-Z0-9._%+-]` of the email regex (local part). -/
def isLocalClass (c : Char) : Bool :=
  c.isAlpha || c.isDigit || c = '.' || c = '_' || c = '%' || c = '+' || c = '-'

/-- The character class `[a-zA-Z0-9.-]` of the email regex (domain part). -/
def isDomainClass (c : Char) : Bool :=
  c.isAlpha || c.isDigit || c = '.' || c = '-'

theorem isPhoneClass_of_isDigit {c : Char} (h : c.isDigit = true) :
    isPhoneClass c = true := by
  simp [isPhoneClass, h]

/-! ### Backtracking matchers for the two regexes

The matchers implement Python `re` semantics for these two patterns:
leftmost match, greedy quantifiers with backtracking.  Each `match…`
function tries to match the (tail of the) pattern at the head of the list
and returns the number of characters consumed by the overall greedy match.
-/

/-- Matches `[0-9\-\(\)\s]*[0-9]` greedily (the star prefers to consume,
backtracking when the final digit cannot be placed).  This is the tail of
the phone regex after its mandatory first digit and the eight mandatory
class characters. -/
def classStarDigit : List Char → Option Nat
  | [] => none
  | c :: rest =>
    match (if isPhoneClass c then classStarDigit rest else none) with
    | some n => some (n + 1)
    | none => if c.isDigit then some 1 else none

/-- Consumes exactly `n` characters of the phone character class,
returning the remainder; the `{8,}` quantifier's mandatory part. -/
def matchClassN : Nat → List Char → Option (List Char)
  | 0, cs => some cs
  | _ + 1, [] => none
  | n + 1, c :: rest => if isPhoneClass c then matchClassN n rest else none

/-- Matches `[0-9][0-9\-\(\)\s]{8,}[0-9]` at the head of the list. -/
def matchPhoneCore (cs : List Char) : Option Nat :=
  match cs with
  | [] => none
  | c :: rest =>
    if c.isDigit then
      match matchClassN 8 rest with
      | some rest8 =>
        match classStarDigit rest8 with
        | some n => some (n + 9)
        | none => none
      | none => none
    else none

/-- Matches the full phone regex `[\+\(]?[0-9][0-9\-\(\)\s]{8,}[0-9]` at the
head of the list (the optional prefix is greedy: tried first, dropped on
failure). -/
def matchPhoneAt (cs : List Char) : Option Nat :=
  match cs with
  | [] => none
  | c :: rest =>
    if c = '+' || c = '(' then
      match matchPhoneCore rest with
      | some n => some (n + 1)
      | none => matchPhoneCore (c :: rest)
    else matchPhoneCore (c :: rest)

/-- Length of the maximal run of ASCII letters at the head of the list. -/
def alphaRunLen (cs : List Char) : Nat :=
  (cs.takeWhile (fun c => c.isAlpha)).length

/-- Matches `[a-zA-Z]{2,}` greedily at the head of the list (the pattern's
final, unconstrained quantifier, hence simply the maximal letter run of
length at least two). -/
def matchTld : List Char → Option Nat
  | a :: b :: rest =>
    if a.isAlpha && b.isAlpha then some (alphaRunLen rest + 2) else none
  | _ => none

/-- Matches `[a-zA-Z0-9.-]*\.[a-zA-Z]{2,}` greedily (star prefers to
consume; on failure the current character must be the literal dot). -/
def dstarDotTld : List Char → Option Nat
  | [] => none
  | c :: rest =>
    match (if isDomainClass c then dstarDotTld rest else none) with
    | some n => some (n + 1)
    | none =>
      if c = '.' then
        match matchTld rest with
        | some n => some (n + 1)
        | none => none
      else none

/-- Matches `[a-zA-Z0-9.-]+\.[a-zA-Z]{2,}` at the head of the list. -/
def matchDomainTail : List Char → Option Nat
  | [] => none
  | c :: rest =>
    if isDomainClass c then
      match dstarDotTld rest with
      | some n => some (n + 1)
      | none => none
    else none

/-- Matches `[a-zA-Z0-9._%+-]*@[a-zA-Z0-9.-]+\.[a-zA-Z]{2,}` greedily. -/
def lstarAtDomain : List Char → Option Nat
  | [] => none
  | c :: rest =>
    match (if isLocalClass c then lstarAtDomain rest else none) with
    | some n => some (n + 1)
    | none =>
      if c = '@' then
        match matchDomainTail rest with
        | some n => some (n + 1)
        | none => none
      else none

/-- Matches the full email regex
`[a-zA-Z0-9._%+-]+@[a-zA-Z0-9.-]+\.[a-zA-Z]{2,}` at the head of the list. -/
def matchEmailAt : List Char → Option Nat
  | [] => none
  | c :: rest =>
    if isLocalClass c then
      match lstarAtDomain rest with
      | some n => some (n + 1)
      | none => none
    else none

/-- `re.findall` for a pattern whose at-position matcher is `f`: scan left to
right, at each position emit the match found there (if any) and continue
after it (after a zero-width match, advance by one character).  The fuel is
the length of the scanned list, which suffices because every step consumes
at least one character. -/
def findallAux (f : List Char → Option Nat) : Nat → List Char → List (List Char)
  | 0, _ => []
  | _ + 1, [] => []
  | fuel + 1, c :: rest =>
    match f (c :: rest) with
    | some (n + 1) =>
      (c :: rest).take (n + 1) :: findallAux f fuel ((c :: rest).drop (n + 1))
    | some 0 => [] :: findallAux f fuel rest
    | none => findallAux f fuel rest

/-- `re.findall pattern text` for the matcher `f`. -/
def findall (f : List Char → Option Nat) (cs : List Char) : List (List Char) :=
  findallAux f cs.length cs

/-- `self.phone_regex.findall(text)` of `InfoExtractor.extract`. -/
def extractPhones (text : List Char) : List (List Char) :=
  findall matchPhoneAt text

/-- `self.email_regex.findall(text)` of `InfoExtractor.extract`. -/
def extractEmails (text : List Char) : List (List Char) :=
  findall matchEmailAt text

/-- `m` occurs contiguously inside `s`. -/
def isSubstringOf (m s : List Char) : Prop :=
  ∃ pre post, s = pre ++ m ++ post

/-- The phone pattern as the specification states it: an optional `+` or
`(`, followed by at least 10 characters drawn from digits, hyphens,
parentheses and whitespace, ending in a digit. -/
def statedPhone (l : List Char) : Prop :=
  ∃ pre rest, l = pre ++ rest ∧ (pre = [] ∨ pre = ['+'] ∨ pre = ['(']) ∧
    10 ≤ rest.length ∧ (∀ c ∈ rest, isPhoneClass c = true) ∧
    ∃ d, rest.getLast? = some d ∧ d.isDigit = true

/-- The email pattern as the specification states it: local part, `@`,
domain, and a final dot-separated top-level label of at least two
letters. -/
def statedEmail (l : List Char) : Prop :=
  ∃ lp dp tp, l = lp ++ '@' :: (dp ++ '.' :: tp) ∧
    lp ≠ [] ∧ (∀ c ∈ lp, isLocalClass c = true) ∧
    dp ≠ [] ∧ (∀ c ∈ dp, isDomainClass c = true) ∧
    2 ≤ tp.length ∧ (∀ c ∈ tp, c.isAlpha = true)

/-! ### Soundness of the matchers: every match decomposes the scanned list
and the matched part satisfies the pattern the specification states. -/

theorem classStarDigit_sound (cs : List Char) (n : Nat)
    (h : classStarDigit cs = some n) :
    ∃ m r, cs = m ++ r ∧ m.length = n ∧ 1 ≤ n ∧
      (∀ c ∈ m, isPhoneClass c = true) ∧
      ∃ d, m.getLast? = some d ∧ d.isDigit = true := by
  induction cs generalizing n with
  | nil => simp [classStarDigit] at h
  | cons c rest ih =>
    rw [classStarDigit] at h
    by_cases hc : isPhoneClass c
    · rw [if_pos hc] at h
      cases hr : classStarDigit rest with
      | some k =>
        rw [hr] at h
        simp only [Option.some.injEq] at h
        obtain ⟨m, r, hsplit, hlen, hk1, hmem, d, hlast, hdig⟩ := ih k hr
        refine ⟨c :: m, r, by simp [hsplit], by simp [hlen, ← h], by omega, ?_, d, ?_, hdig⟩
        · intro x hx
          rcases List.mem_cons.mp hx with hx | hx
          · exact hx ▸ hc
          · exact hmem x hx
        · obtain ⟨y, ys, hy⟩ := List.exists_cons_of_ne_nil
            (List.length_pos.mp (by omega : 0 < m.length))
          rw [hy, List.getLast?_cons_cons, ← hy, hlast]
      | none =>
        rw [hr] at h
        simp only [] at h
        by_cases hd : c.isDigit
        · rw [if_pos hd] at h
          simp only [Option.some.injEq] at h
          exact ⟨[c], rest, rfl, by simp [← h], by omega, by simp [hc], c, rfl, hd⟩
        · rw [if_neg hd] at h; exact absurd h (by simp)
    · rw [if_neg hc] at h
      simp only [] at h
      by_cases hd : c.isDigit
      · rw [if_pos hd] at h
        simp only [Option.some.injEq] at h
        exact ⟨[c], rest, rfl, by simp [← h], by omega,
          by simp [isPhoneClass_of_isDigit hd], c, rfl, hd⟩
      · rw [if_neg hd] at h; exact absurd h (by simp)

theorem matchClassN_sound (n : Nat) (cs rest : List Char)
    (h : matchClassN n cs = some rest) :
    ∃ t, cs = t ++ rest ∧ t.length = n ∧ ∀ c ∈ t, isPhoneClass c = true := by
  induction n generalizing cs with
  | zero =>
    rw [matchClassN] at h
    simp only [Option.some.injEq] at h
    exact ⟨[], by simp [h], rfl, by simp⟩
  | succ k ih =>
    cases cs with
    | nil => simp [matchClassN] at h
    | cons c cs' =>
      rw [matchClassN] at h
      by_cases hc : isPhoneClass c
      · rw [if_pos hc] at h
        obtain ⟨t, hsplit, hlen, hmem⟩ := ih cs' h
        refine ⟨c :: t, by simp [hsplit], by simp [hlen], ?_⟩
        intro x hx
        rcases List.mem_cons.mp hx with hx | hx
        · exact hx ▸ hc
        · exact hmem x hx
      · rw [if_neg hc] at h; exact absurd h (by simp)

theorem matchPhoneCore_sound (cs : List Char) (n : Nat)
    (h : matchPhoneCore cs = some n) :
    ∃ m r, cs = m ++ r ∧ m.length = n ∧ 10 ≤ n ∧
      (∀ c ∈ m, isPhoneClass c = true) ∧
      ∃ d, m.getLast? = some d ∧ d.isDigit = true := by
  cases cs with
  | nil => simp [matchPhoneCore] at h
  | cons c rest =>
    rw [matchPhoneCore] at h
    by_cases hd : c.isDigit
    · rw [if_pos hd] at h
      cases h8 : matchClassN 8 rest with
      | none => rw [h8] at h; exact absurd h (by simp)
      | some rest8 =>
        rw [h8] at h
        simp only [] at h
        cases hs : classStarDigit rest8 with
        | none => rw [hs] at h; exact absurd h (by simp)
        | some k =>
          rw [hs] at h
          simp only [Option.some.injEq] at h
          obtain ⟨t, ht, htl, htc⟩ := matchClassN_sound 8 rest rest8 h8
          obtain ⟨m, r, hm, hml, hk1, hmc, d, hlast, hdig⟩ := classStarDigit_sound rest8 k hs
          refine ⟨c :: (t ++ m), r, by simp [ht, hm], by simp [htl, hml, ← h]; omega,
            by omega, ?_, d, ?_, hdig⟩
          · intro x hx
            rcases List.mem_cons.mp hx with hx | hx
            · exact hx ▸ isPhoneClass_of_isDigit hd
            · rcases List.mem_append.mp hx with hx | hx
              · exact htc x hx
              · exact hmc x hx
          · have hmne : m ≠ [] := List.length_pos.mp (by omega)
            calc (c :: (t ++ m)).getLast? = ((c :: t) ++ m).getLast? := by simp
              _ = m.getLast? := List.getLast?_append_of_ne_nil (c :: t) hmne
              _ = some d := hlast
    · rw [if_neg hd] at h; exact absurd h (by simp)

theorem matchPhoneAt_sound (cs : List Char) (n : Nat)
    (h : matchPhoneAt cs = some n) :
    ∃ m r, cs = m ++ r ∧ m.length = n ∧ 1 ≤ n ∧ statedPhone m := by
  cases cs with
  | nil => simp [matchPhoneAt] at h
  | cons c rest =>
    rw [matchPhoneAt] at h
    by_cases hp : (c = '+' || c = '(') = true
    · rw [if_pos hp] at h
      cases hcore : matchPhoneCore rest with
      | some k =>
        rw [hcore] at h
        simp only [Option.some.injEq] at h
        obtain ⟨m, r, hm, hml, hk, hmc, d, hlast, hdig⟩ := matchPhoneCore_sound rest k hcore
        refine ⟨c :: m, r, by simp [hm], by simp [hml, ← h], by omega,
          [c], m, rfl, ?_, by omega, hmc, d, hlast, hdig⟩
        rcases Bool.or_eq_true_iff.mp hp with hc | hc
        · exact Or.inr (Or.inl (by simp [of_decide_eq_true hc]))
        · exact Or.inr (Or.inr (by simp [of_decide_eq_true hc]))
      | none =>
        rw [hcore] at h
        obtain ⟨m, r, hm, hml, hk, hmc, d, hlast, hdig⟩ :=
          matchPhoneCore_sound (c :: rest) n h
        exact ⟨m, r, hm, hml, by omega, [], m, by simp, Or.inl rfl, by omega, hmc,
          d, hlast, hdig⟩
    · rw [if_neg hp] at h
      obtain ⟨m, r, hm, hml, hk, hmc, d, hlast, hdig⟩ :=
        matchPhoneCore_sound (c :: rest) n h
      exact ⟨m, r, hm, hml, by omega, [], m, by simp, Or.inl rfl, by omega, hmc,
        d, hlast, hdig⟩

theorem matchTld_sound (cs : List Char) (n : Nat) (h : matchTld cs = some n) :
    ∃ m r, cs = m ++ r ∧ m.length = n ∧ 2 ≤ n ∧ ∀ c ∈ m, c.isAlpha = true := by
  cases cs with
  | nil => simp [matchTld] at h
  | cons a cs' =>
    cases cs' with
    | nil => simp [matchTld] at h
    | cons b rest =>
      rw [matchTld] at h
      by_cases hab : (a.isAlpha && b.isAlpha) = true
      · rw [if_pos hab] at h
        simp only [Option.some.injEq] at h
        obtain ⟨ha, hb⟩ := Bool.and_eq_true_iff.mp hab
        refine ⟨a :: b :: rest.takeWhile (fun c => c.isAlpha),
          rest.dropWhile (fun c => c.isAlpha), by simp, by simp [alphaRunLen, ← h], by omega, ?_⟩
        intro x hx
        rcases List.mem_cons.mp hx with hx | hx
        · exact hx ▸ ha
        rcases List.mem_cons.mp hx with hx | hx
        · exact hx ▸ hb
        · exact List.mem_takeWhile_imp hx
      · rw [if_neg hab] at h; exact absurd h (by simp)

theorem dstarDotTld_sound (cs : List Char) (n : Nat)
    (h : dstarDotTld cs = some n) :
    ∃ dp tp r, cs = (dp ++ '.' :: tp) ++ r ∧ (dp ++ '.' :: tp).length = n ∧
      (∀ c ∈ dp, isDomainClass c = true) ∧ 2 ≤ tp.length ∧
      ∀ c ∈ tp, c.isAlpha = true := by
  induction cs generalizing n with
  | nil => simp [dstarDotTld] at h
  | cons c rest ih =>
    rw [dstarDotTld] at h
    by_cases hc : isDomainClass c
    · rw [if_pos hc] at h
      cases hr : dstarDotTld rest with
      | some k =>
        rw [hr] at h
        simp only [Option.some.injEq] at h
        obtain ⟨dp, tp, r, hsplit, hlen, hdp, htp2, htpa⟩ := ih k hr
        refine ⟨c :: dp, tp, r, by simp [hsplit], by simp at hlen ⊢; omega, ?_, htp2, htpa⟩
        intro x hx
        rcases List.mem_cons.mp hx with hx | hx
        · exact hx ▸ hc
        · exact hdp x hx
      | none =>
        rw [hr] at h
        simp only [] at h
        by_cases hdot : c = '.'
        · rw [if_pos hdot] at h
          cases htld : matchTld rest with
          | none => rw [htld] at h; exact absurd h (by simp)
          | some k =>
            rw [htld] at h
            simp only [Option.some.injEq] at h
            obtain ⟨m, r, hm, hml, hk2, hma⟩ := matchTld_sound rest k htld
            refine ⟨[], m, r, by simp [hdot, hm], by simp [hml, ← h], by simp, by omega, hma⟩
        · rw [if_neg hdot] at h; exact absurd h (by simp)
    · rw [if_neg hc] at h
      simp only [] at h
      by_cases hdot : c = '.'
      · rw [if_pos hdot] at h
        cases htld : matchTld rest with
        | none => rw [htld] at h; exact absurd h (by simp)
        | some k =>
          rw [htld] at h
          simp only [Option.some.injEq] at h
          obtain ⟨m, r, hm, hml, hk2, hma⟩ := matchTld_sound rest k htld
          refine ⟨[], m, r, by simp [hdot, hm], by simp [hml, ← h], by simp, by omega, hma⟩
      · rw [if_neg hdot] at h; exact absurd h (by simp)

theorem matchDomainTail_sound (cs : List Char) (n : Nat)
    (h : matchDomainTail cs = some n) :
    ∃ dp tp r, cs = (dp ++ '.' :: tp) ++ r ∧ (dp ++ '.' :: tp).length = n ∧
      dp ≠ [] ∧ (∀ c ∈ dp, isDomainClass c = true) ∧ 2 ≤ tp.length ∧
      ∀ c ∈ tp, c.isAlpha = true := by
  cases cs with
  | nil => simp [matchDomainTail] at h
  | cons c rest =>
    rw [matchDomainTail] at h
    by_cases hc : isDomainClass c
    · rw [if_pos hc] at h
      cases hr : dstarDotTld rest with
      | none => rw [hr] at h; exact absurd h (by simp)
      | some k =>
        rw [hr] at h
        simp only [Option.some.injEq] at h
        obtain ⟨dp, tp, r, hsplit, hlen, hdp, htp2, htpa⟩ := dstarDotTld_sound rest k hr
        refine ⟨c :: dp, tp, r, by simp [hsplit], by simp at hlen ⊢; omega,
          by simp, ?_, htp2, htpa⟩
        intro x hx
        rcases List.mem_cons.mp hx with hx | hx
        · exact hx ▸ hc
        · exact hdp x hx
    · rw [if_neg hc] at h; exact absurd h (by simp)

theorem lstarAtDomain_sound (cs : List Char) (n : Nat)
    (h : lstarAtDomain cs = some n) :
    ∃ lp dp tp r, cs = (lp ++ '@' :: (dp ++ '.' :: tp)) ++ r ∧
      (lp ++ '@' :: (dp ++ '.' :: tp)).length = n ∧
      (∀ c ∈ lp, isLocalClass c = true) ∧
      dp ≠ [] ∧ (∀ c ∈ dp, isDomainClass c = true) ∧ 2 ≤ tp.length ∧
      ∀ c ∈ tp, c.isAlpha = true := by
  induction cs generalizing n with
  | nil => simp [lstarAtDomain] at h
  | cons c rest ih =>
    rw [lstarAtDomain] at h
    by_cases hc : isLocalClass c
    · rw [if_pos hc] at h
      cases hr : lstarAtDomain rest with
      | some k =>
        rw [hr] at h
        simp only [Option.some.injEq] at h
        obtain ⟨lp, dp, tp, r, hsplit, hlen, hlp, hdpne, hdp, htp2, htpa⟩ := ih k hr
        refine ⟨c :: lp, dp, tp, r, by simp [hsplit], by simp at hlen ⊢; omega,
          ?_, hdpne, hdp, htp2, htpa⟩
        intro x hx
        rcases List.mem_cons.mp hx with hx | hx
        · exact hx ▸ hc
        · exact hlp x hx
      | none =>
        rw [hr] at h
        simp only [] at h
        by_cases hat : c = '@'
        · rw [if_pos hat] at h
          cases hdt : matchDomainTail rest with
          | none => rw [hdt] at h; exact absurd h (by simp)
          | some k =>
            rw [hdt] at h
            simp only [Option.some.injEq] at h
            obtain ⟨dp, tp, r, hsplit, hlen, hdpne, hdp, htp2, htpa⟩ :=
              matchDomainTail_sound rest k hdt
            exact ⟨[], dp, tp, r, by simp [hat, hsplit], by simp at hlen ⊢; omega,
              by simp, hdpne, hdp, htp2, htpa⟩
        · rw [if_neg hat] at h; exact absurd h (by simp)
    · rw [if_neg hc] at h
      simp only [] at h
      by_cases hat : c = '@'
      · rw [if_pos hat] at h
        cases hdt : matchDomainTail rest with
        | none => rw [hdt] at h; exact absurd h (by simp)
        | some k =>
          rw [hdt] at h
          simp only [Option.some.injEq] at h
          obtain ⟨dp, tp, r, hsplit, hlen, hdpne, hdp, htp2, htpa⟩ :=
            matchDomainTail_sound rest k hdt
          exact ⟨[], dp, tp, r, by simp [hat, hsplit], by simp at hlen ⊢; omega,
            by simp, hdpne, hdp, htp2, htpa⟩
      · rw [if_neg hat] at h; exact absurd h (by simp)

theorem matchEmailAt_sound (cs : List Char) (n : Nat)
    (h : matchEmailAt cs = some n) :
    ∃ m r, cs = m ++ r ∧ m.length = n ∧ 1 ≤ n ∧ statedEmail m := by
  cases cs with
  | nil => simp [matchEmailAt] at h
  | cons c rest =>
    rw [matchEmailAt] at h
    by_cases hc : isLocalClass c
    · rw [if_pos hc] at h
      cases hr : lstarAtDomain rest with
      | none => rw [hr] at h; exact absurd h (by simp)
      | some k =>
        rw [hr] at h
        simp only [Option.some.injEq] at h
        obtain ⟨lp, dp, tp, r, hsplit, hlen, hlp, hdpne, hdp, htp2, htpa⟩ :=
          lstarAtDomain_sound rest k hr
        refine ⟨(c :: lp) ++ '@' :: (dp ++ '.' :: tp), r, by simp [hsplit],
          by simp at hlen ⊢; omega, by omega, c :: lp, dp, tp, rfl, by simp, ?_,
          hdpne, hdp, htp2, htpa⟩
        intro x hx
        rcases List.mem_cons.mp hx with hx | hx
        · exact hx ▸ hc
        · exact hlp x hx
    · rw [if_neg hc] at h; exact absurd h (by simp)

/-- Every string emitted by `findall f` is `f`-matched: it is the matched
prefix of some split of the scanned list. -/
theorem findallAux_sound (f : List Char → Option Nat) (P : List Char → Prop)
    (hf : ∀ cs n, f cs = some n → ∃ m r, cs = m ++ r ∧ m.length = n ∧ P m) :
    ∀ fuel cs x, x ∈ findallAux f fuel cs → P x ∧ isSubstringOf x cs := by
  intro fuel
  induction fuel with
  | zero => intro cs x hx; simp [findallAux] at hx
  | succ fuel ih =>
    intro cs x hx
    cases cs with
    | nil => simp [findallAux] at hx
    | cons c rest =>
      rw [findallAux] at hx
      cases hm : f (c :: rest) with
      | none =>
        rw [hm] at hx
        obtain ⟨hP, pre, post, hsub⟩ := ih rest x hx
        exact ⟨hP, c :: pre, post, by simp [hsub]⟩
      | some n =>
        cases n with
        | zero =>
          rw [hm] at hx
          simp only [List.mem_cons] at hx
          rcases hx with hx | hx
          · obtain ⟨m, r, hsplit, hlen, hP⟩ := hf _ 0 hm
            have : m = [] := List.eq_nil_of_length_eq_zero hlen
            exact ⟨hx ▸ this ▸ hP, [], c :: rest, by simp [hx]⟩
          · obtain ⟨hP, pre, post, hsub⟩ := ih rest x hx
            exact ⟨hP, c :: pre, post, by simp [hsub]⟩
        | succ k =>
          rw [hm] at hx
          simp only [List.mem_cons] at hx
          obtain ⟨m, r, hsplit, hlen, hP⟩ := hf _ (k + 1) hm
          rcases hx with hx | hx
          · have htake : (c :: rest).take (k + 1) = m := by
              rw [hsplit]; exact List.take_left' hlen
            refine ⟨hx ▸ htake ▸ hP, [], r, ?_⟩
            rw [hx, htake, hsplit]
            simp
          · have hdrop : (c :: rest).drop (k + 1) = r := by
              rw [hsplit]; exact List.drop_left' hlen
            rw [hdrop] at hx
            obtain ⟨hP2, pre, post, hsub⟩ := ih r x hx
            exact ⟨hP2, m ++ pre, post, by simp [hsplit, hsub]⟩

theorem findall_sound (f : List Char → Option Nat) (P : List Char → Prop)
    (hf : ∀ cs n, f cs = some n → ∃ m r, cs = m ++ r ∧ m.length = n ∧ P m)
    (cs x : List Char) (hx : x ∈ findall f cs) : P x ∧ isSubstringOf x cs :=
  findallAux_sound f P hf cs.length cs x hx

theorem extractPhones_sound (text : List Char) (x : List Char)
    (hx : x ∈ extractPhones text) : statedPhone x ∧ isSubstringOf x text := by
  have := findall_sound matchPhoneAt statedPhone
    (fun cs n h => by
      obtain ⟨m, r, hsplit, hlen, _, hP⟩ := matchPhoneAt_sound cs n h
      exact ⟨m, r, hsplit, hlen, hP⟩) text x hx
  exact this

theorem extractEmails_sound (text : List Char) (x : List Char)
    (hx : x ∈ extractEmails text) : statedEmail x ∧ isSubstringOf x text := by
  have := findall_sound matchEmailAt statedEmail
    (fun cs n h => by
      obtain ⟨m, r, hsplit, hlen, _, hP⟩ := matchEmailAt_sound cs n h
      exact ⟨m, r, hsplit, hlen, hP⟩) text x hx
  exact this

/-! ### `InfoExtractor` (`src/utils/extract_info.py`)

The spaCy NER model is a black box: its outcome (a list of entities, each
with a surface text and a label, or an exception) is an environment
parameter.  `extract` runs both regexes on the text, then the model, and
keeps the texts of the entities labelled `PERSON`. -/

/-- One entity produced by the black-box NER model: `ent.text` and
`ent.label_`. -/
structure NerEntity where
  text : String
  label : String
deriving DecidableEq

/-- The `ExtractedInfo` dataclass. -/
structure ExtractedInfo where
  phones : List String
  emails : List String
  names : List String
deriving DecidableEq

theorem asString_toList (l : List Char) : (List.asString l).toList = l := rfl

/-- `InfoExtractor.extract`: `phones = phone_regex.findall(text)`,
`emails = email_regex.findall(text)`, `doc = nlp(text)` (which may raise;
the error propagates unhandled), `names = [ent.text for ent in doc.ents if
ent.label_ == "PERSON"]`. -/
def InfoExtractor.extract (nerResult : Except Unit (List NerEntity))
    (text : String) : Except Unit ExtractedInfo :=
  let phones := (extractPhones text.toList).map List.asString
  let emails := (extractEmails text.toList).map List.asString
  match nerResult with
  | Except.error e => Except.error e
  | Except.ok ents =>
    Except.ok { phones := phones, emails := emails,
                names := (ents.filter (fun e => e.label == "PERSON")).map NerEntity.text }

/-! ### `QASystem` (`src/qa_system.py`)

The retriever-plus-reader pipeline is a black box returning a ranked list
of candidate answers, or raising; `QASystem.answer` wraps one `pipeline.run`
call in `try`/`except`, returning the top answer's text, `None` on an empty
candidate list, and `None` on any exception. -/

/-- One candidate of `result["answers"]`. -/
structure RankedAnswer where
  answer : String
  score : ℚ
deriving DecidableEq

/-- The black-box pipeline: `run query documents` for the single document
built from the supplied text. -/
structure QAEnv where
  run : String → String → Except Unit (List RankedAnswer)

/-- `QASystem.answer(text, question)`: the `try` body returns
`result["answers"][0].answer if result["answers"] else None`; the
`except Exception` handler logs and returns `None`. -/
def QASystem.answer (env : QAEnv) (text question : String) :
    Except Unit (Option String) :=
  let body : Except Unit (Option String) :=
    match env.run question text with
    | Except.error e => Except.error e
    | Except.ok answers =>
      match answers with
      | [] => Except.ok none
      | a :: _ => Except.ok (some a.answer)
  match body with
  | Except.ok v => Except.ok v
  | Except.error _ => Except.ok none

/-! ### Claims C4, C6, C8 -/

/-- C4: `QASystem.answer` never raises outward: it returns the top-ranked
candidate's text when the pipeline yields at least one candidate, the
absence marker (`None`) when it yields zero candidates, and converts any
internal pipeline failure into the absence marker. -/
theorem C4_qa_never_raises_outward (env : QAEnv) (text question : String) :
    (∃ v, QASystem.answer env text question = Except.ok v) ∧
    (∀ a rest, env.run question text = Except.ok (a :: rest) →
      QASystem.answer env text question = Except.ok (some a.answer)) ∧
    (env.run question text = Except.ok [] →
      QASystem.answer env text question = Except.ok none) ∧
    (∀ e, env.run question text = Except.error e →
      QASystem.answer env text question = Except.ok none) := by
  cases hr : env.run question text with
  | error e => exact ⟨⟨none, by simp [QASystem.answer, hr]⟩,
      by simp [hr], by simp [hr], by simp [QASystem.answer, hr]⟩
  | ok answers =>
    cases answers with
    | nil => exact ⟨⟨none, by simp [QASystem.answer, hr]⟩,
        by simp [hr], by simp [QASystem.answer, hr], by simp [hr]⟩
    | cons a rest =>
      refine ⟨⟨some a.answer, by simp [QASystem.answer, hr]⟩, ?_,
        by simp [hr], by simp [hr]⟩
      intro a' rest' h
      simp only [Except.ok.injEq, List.cons.injEq] at h
      simp [QASystem.answer, hr, ← h.1]

/-- C4 witness: a failing pipeline run is absorbed into the absence
marker. -/
theorem C4_witness :
    QASystem.answer { run := fun _ _ => Except.error () } "" "q" =
      Except.ok none :=
  (C4_qa_never_raises_outward { run := fun _ _ => Except.error () } "" "q").2.2.2 () rfl

/-- C6: every phone and email returned by `InfoExtractor.extract` is an
exact substring of the input text matching the stated pattern, and the
scenario input yields `"(123) 456-7890"` among the phones and
`"john@example.com"` among the emails. -/
theorem C6_extraction_patterns :
    (∀ (ner : Except Unit (List NerEntity)) (text : String) (info : ExtractedInfo),
      InfoExtractor.extract ner text = Except.ok info →
      (∀ p ∈ info.phones, isSubstringOf p.toList text.toList ∧ statedPhone p.toList) ∧
      (∀ e ∈ info.emails, isSubstringOf e.toList text.toList ∧ statedEmail e.toList)) ∧
    ∀ info : ExtractedInfo,
      InfoExtractor.extract (Except.ok [])
          "Call (123) 456-7890 or email john@example.com" = Except.ok info →
      "(123) 456-7890" ∈ info.phones ∧ "john@example.com" ∈ info.emails := by
  constructor
  · intro ner text info hok
    cases ner with
    | error e => simp [InfoExtractor.extract] at hok
    | ok ents =>
      simp only [InfoExtractor.extract, Except.ok.injEq] at hok
      subst hok
      constructor
      · intro p hp
        simp only [List.mem_map] at hp
        obtain ⟨l, hl, hp⟩ := hp
        have hs := extractPhones_sound text.toList l hl
        rw [← hp, asString_toList]
        exact ⟨hs.2, hs.1⟩
      · intro p hp
        simp only [List.mem_map] at hp
        obtain ⟨l, hl, hp⟩ := hp
        have hs := extractEmails_sound text.toList l hl
        rw [← hp, asString_toList]
        exact ⟨hs.2, hs.1⟩
  · intro info hok
    have hconc : InfoExtractor.extract (Except.ok [])
        "Call (123) 456-7890 or email john@example.com" =
        Except.ok { phones := ["(123) 456-7890"],
                    emails := ["john@example.com"], names := [] } := by rfl
    rw [hconc] at hok
    simp only [Except.ok.injEq] at hok
    subst hok
    exact ⟨by simp, by simp⟩

/-- C6 witness: the two scenario outputs really are pattern-conforming
substrings of the scenario input. -/
theorem C6_witness :
    (isSubstringOf ("(123) 456-7890".toList)
        ("Call (123) 456-7890 or email john@example.com".toList) ∧
      statedPhone ("(123) 456-7890".toList)) ∧
    (isSubstringOf ("john@example.com".toList)
        ("Call (123) 456-7890 or email john@example.com".toList) ∧
      statedEmail ("john@example.com".toList)) :=
  ⟨(C6_extraction_patterns.1 (Except.ok [])
      "Call (123) 456-7890 or email john@example.com"
      { phones := ["(123) 456-7890"], emails := ["john@example.com"], names := [] }
      rfl).1 "(123) 456-7890" (by simp),
   (C6_extraction_patterns.1 (Except.ok [])
      "Call (123) 456-7890 or email john@example.com"
      { phones := ["(123) 456-7890"], emails := ["john@example.com"], names := [] }
      rfl).2 "john@example.com" (by simp)⟩

/-- C8: whenever the NER model succeeds, `InfoExtractor.extract` returns a
fully populated `ExtractedInfo` (all three sequences present, each possibly
empty) and does not fail; with zero `PERSON` entities the `names` sequence
is empty, not a failure. -/
theorem C8_extract_total_on_ner_success (ents : List NerEntity) (text : String) :
    InfoExtractor.extract (Except.ok ents) text =
      Except.ok { phones := (extractPhones text.toList).map List.asString,
                  emails := (extractEmails text.toList).map List.asString,
                  names := (ents.filter (fun e => e.label == "PERSON")).map NerEntity.text } ∧
    ((∀ e ∈ ents, (e.label == "PERSON") = false) →
      InfoExtractor.extract (Except.ok ents) text =
        Except.ok { phones := (extractPhones text.toList).map List.asString,
                    emails := (extractEmails text.toList).map List.asString,
                    names := [] }) := by
  refine ⟨rfl, fun h => ?_⟩
  have hf : ents.filter (fun e => e.label == "PERSON") = [] := by
    rw [List.filter_eq_nil_iff]
    intro a ha
    simp [h a ha]
  simp [InfoExtractor.extract, hf]

/-- C8 witness: a text with one non-person entity yields an empty `names`
sequence (and no failure). -/
theorem C8_witness :
    InfoExtractor.extract (Except.ok [{ text := "Acme", label := "ORG" }]) "call 123" =
      Except.ok { phones := (extractPhones "call 123".toList).map List.asString,
                  emails := (extractEmails "call 123".toList).map List.asString,
                  names := [] } :=
  (C8_extract_total_on_ner_success [{ text := "Acme", label := "ORG" }] "call 123").2
    (by decide)

/-! ### `AudioTranscriber` (`src/utils/transcribe.py`)

The whisper model and the filesystem are black boxes: the environment says
at which call site, if any, an exception is raised and whether it is a
`FileNotFoundError` or some other exception, and what text a successful
`model.transcribe` produces.  Progress values are rationals; the trace of a
run is the list of values actually delivered to the progress callback.  The
callback itself is a black box that may raise on any value; the exception
is caught and logged inside `_update_progress`. -/

/-- Exception classification of the `try` block of `transcribe`. -/
inductive FailKind
  | fileNotFound
  | other
deriving DecidableEq

/-- The call sites inside the `try` block of `transcribe` at which the
black boxes can raise. -/
inductive FailSite
  | loadAudio
  | padOrTrim
  | logMel
  | detectLanguage
  | modelTranscribe
deriving DecidableEq

/-- Black-box behaviour of one `transcribe` call: at most one call site
raises, with a kind; on success `model.transcribe` yields `resultText`. -/
structure TranscribeEnv where
  failAt : Option (FailSite × FailKind)
  resultText : String
deriving DecidableEq

/-- Black-box behaviour of the registered progress callback: the set of
values on which the callback itself raises. -/
structure ProgressCallback where
  raises : ℚ → Bool

/-- One invocation of the callback: `Except.error` when it raises. -/
def callbackCall (c : ProgressCallback) (p : ℚ) : Except Unit Unit :=
  if c.raises p then Except.error () else Except.ok ()

/-- `min(1.0, max(0.0, progress))` of `_update_progress`. -/
def clamp (p : ℚ) : ℚ := min 1 (max 0 p)

/-- `AudioTranscriber._update_progress`: when a callback is registered, the
clamped value is delivered to it; an exception raised by the callback is
caught and logged, never propagated.  Returns the extended delivery
trace. -/
def update_progress (cb : Option ProgressCallback) (p : ℚ) (t : List ℚ) :
    List ℚ :=
  match cb with
  | none => t
  | some c =>
    match callbackCall c (clamp p) with
    | Except.ok _ => t ++ [clamp p]
    | Except.error _ => t ++ [clamp p]

/-- Whether the black box raises at call site `s`, and with which kind. -/
def siteFail (env : TranscribeEnv) (s : FailSite) : Option FailKind :=
  match env.failAt with
  | none => none
  | some (s', k) => if s' = s then some k else none

/-- The `try` block of `transcribe`: progress milestones 0.1 (init), 0.2
(audio load), 0.3 (mel spectrogram), 0.4 (language detection — the
detection call runs only when no language is pinned), 0.5 (decoding start),
0.9 (after decoding); each black-box call may raise. -/
def transcribeBody (env : TranscribeEnv) (cb : Option ProgressCallback)
    (language : Option String) : Except FailKind String × List ℚ :=
  let t0 := update_progress cb (1/10) []
  let t1 := update_progress cb (2/10) t0
  match siteFail env FailSite.loadAudio with
  | some k => (Except.error k, t1)
  | none =>
    match siteFail env FailSite.padOrTrim with
    | some k => (Except.error k, t1)
    | none =>
      let t2 := update_progress cb (3/10) t1
      match siteFail env FailSite.logMel with
      | some k => (Except.error k, t2)
      | none =>
        let t3 := update_progress cb (4/10) t2
        match (if language.isNone then siteFail env FailSite.detectLanguage else none) with
        | some k => (Except.error k, t3)
        | none =>
          let t4 := update_progress cb (5/10) t3
          match siteFail env FailSite.modelTranscribe with
          | some k => (Except.error k, t4)
          | none =>
            let t5 := update_progress cb (9/10) t4
            (Except.ok env.resultText, t5)

/-- Result of one `transcribe` call: the outcome seen by the caller
(`Except.error` = an exception propagates; `Except.ok none` = the
missing-file path returned `None`; `Except.ok (some s)` = normal return)
and the delivery trace of the progress callback. -/
structure TranscribeResult where
  outcome : Except FailKind (Option String)
  trace : List ℚ

/-- `AudioTranscriber.transcribe`: the `try` block, the
`except FileNotFoundError` handler (log, emit 1.0, return `None`), the
`except Exception` handler (log, emit 1.0, re-raise), and the `finally`
block (emit 1.0 on every exit path). -/
def AudioTranscriber.transcribe (env : TranscribeEnv)
    (cb : Option ProgressCallback) (language : Option String) :
    TranscribeResult :=
  let r := transcribeBody env cb language
  match r.1 with
  | Except.ok text =>
    { outcome := Except.ok (some text), trace := update_progress cb 1 r.2 }
  | Except.error FailKind.fileNotFound =>
    { outcome := Except.ok none,
      trace := update_progress cb 1 (update_progress cb 1 r.2) }
  | Except.error FailKind.other =>
    { outcome := Except.error FailKind.other,
      trace := update_progress cb 1 (update_progress cb 1 r.2) }

/-- The kind of the failure that the `try` block actually hits in a run
with the given pinned language (`none` when the run succeeds); the
`detectLanguage` site is reached only when no language is pinned. -/
def activeFailKind (env : TranscribeEnv) (language : Option String) :
    Option FailKind :=
  match env.failAt with
  | none => none
  | some (s, k) =>
    if s = FailSite.detectLanguage ∧ language.isSome then none else some k

/-! Evaluation of `transcribe` with a registered callback, case by case. -/

theorem update_progress_some (c : ProgressCallback) (p : ℚ) (t : List ℚ) :
    update_progress (some c) p t = t ++ [clamp p] := by
  cases h : callbackCall c (clamp p) <;> simp [update_progress, h]

theorem clamp_of_bounds (p : ℚ) (h0 : 0 ≤ p) (h1 : p ≤ 1) : clamp p = p := by
  rw [clamp, max_eq_right h0, min_eq_right h1]

theorem clamp_one : clamp 1 = 1 := clamp_of_bounds 1 (by norm_num) (by norm_num)

theorem transcribe_eval_ok (env : TranscribeEnv) (c : ProgressCallback)
    (lang : Option String)
    (h : ∀ s k, env.failAt = some (s, k) → s = FailSite.detectLanguage ∧ lang.isSome) :
    AudioTranscriber.transcribe env (some c) lang =
      { outcome := Except.ok (some env.resultText),
        trace := [1/10, 2/10, 3/10, 4/10, 5/10, 9/10, 1] } := by
  have hsf : ∀ s', siteFail env s' = none ∨
      (s' = FailSite.detectLanguage ∧ lang.isSome) := by
    intro s'
    cases hf : env.failAt with
    | none => exact Or.inl (by simp [siteFail, hf])
    | some p =>
      obtain ⟨s, k⟩ := p
      by_cases hss : s = s'
      · exact Or.inr (hss ▸ h s k hf)
      · exact Or.inl (by simp [siteFail, hf, hss])
  have h1 : siteFail env FailSite.loadAudio = none := by
    rcases hsf FailSite.loadAudio with h' | h' <;> simp_all
  have h2 : siteFail env FailSite.padOrTrim = none := by
    rcases hsf FailSite.padOrTrim with h' | h' <;> simp_all
  have h3 : siteFail env FailSite.logMel = none := by
    rcases hsf FailSite.logMel with h' | h' <;> simp_all
  have h5 : siteFail env FailSite.modelTranscribe = none := by
    rcases hsf FailSite.modelTranscribe with h' | h' <;> simp_all
  have h4 : (if lang.isNone then siteFail env FailSite.detectLanguage else none) = none := by
    rcases hsf FailSite.detectLanguage with h' | h'
    · simp [h']
    · cases lang <;> simp_all
  simp only [AudioTranscriber.transcribe, transcribeBody, h1, h2, h3, h4, h5,
    update_progress_some, clamp_one,
    clamp_of_bounds (1/10) (by norm_num) (by norm_num),
    clamp_of_bounds (2/10) (by norm_num) (by norm_num),
    clamp_of_bounds (3/10) (by norm_num) (by norm_num),
    clamp_of_bounds (4/10) (by norm_num) (by norm_num),
    clamp_of_bounds (5/10) (by norm_num) (by norm_num),
    clamp_of_bounds (9/10) (by norm_num) (by norm_num)]
  simp

/-- Outcome of `transcribe` when the `try` block raises with kind `k`:
the `FileNotFoundError` handler returns `None`, the generic handler
re-raises. -/
def errOutcome : FailKind → Except FailKind (Option String)
  | FailKind.fileNotFound => Except.ok none
  | FailKind.other => Except.error FailKind.other

theorem transcribe_eval_loadAudio (env : TranscribeEnv) (c : ProgressCallback)
    (lang : Option String) (k : FailKind)
    (h : env.failAt = some (FailSite.loadAudio, k)) :
    AudioTranscriber.transcribe env (some c) lang =
      { outcome := errOutcome k, trace := [1/10, 2/10, 1, 1] } := by
  cases k <;>
    simp [AudioTranscriber.transcribe, transcribeBody, siteFail, h, errOutcome,
      update_progress_some] <;>
    norm_num [clamp, min_def, max_def]

theorem transcribe_eval_padOrTrim (env : TranscribeEnv) (c : ProgressCallback)
    (lang : Option String) (k : FailKind)
    (h : env.failAt = some (FailSite.padOrTrim, k)) :
    AudioTranscriber.transcribe env (some c) lang =
      { outcome := errOutcome k, trace := [1/10, 2/10, 1, 1] } := by
  cases k <;>
    simp [AudioTranscriber.transcribe, transcribeBody, siteFail, h, errOutcome,
      update_progress_some] <;>
    norm_num [clamp, min_def, max_def]

theorem transcribe_eval_logMel (env : TranscribeEnv) (c : ProgressCallback)
    (lang : Option String) (k : FailKind)
    (h : env.failAt = some (FailSite.logMel, k)) :
    AudioTranscriber.transcribe env (some c) lang =
      { outcome := errOutcome k, trace := [1/10, 2/10, 3/10, 1, 1] } := by
  cases k <;>
    simp [AudioTranscriber.transcribe, transcribeBody, siteFail, h, errOutcome,
      update_progress_some] <;>
    norm_num [clamp, min_def, max_def]

theorem transcribe_eval_detect (env : TranscribeEnv) (c : ProgressCallback)
    (k : FailKind) (h : env.failAt = some (FailSite.detectLanguage, k)) :
    AudioTranscriber.transcribe env (some c) none =
      { outcome := errOutcome k, trace := [1/10, 2/10, 3/10, 4/10, 1, 1] } := by
  cases k <;>
    simp [AudioTranscriber.transcribe, transcribeBody, siteFail, h, errOutcome,
      update_progress_some] <;>
    norm_num [clamp, min_def, max_def]

theorem transcribe_eval_model (env : TranscribeEnv) (c : ProgressCallback)
    (lang : Option String) (k : FailKind)
    (h : env.failAt = some (FailSite.modelTranscribe, k)) :
    AudioTranscriber.transcribe env (some c) lang =
      { outcome := errOutcome k, trace := [1/10, 2/10, 3/10, 4/10, 5/10, 1, 1] } := by
  cases k <;>
    simp [AudioTranscriber.transcribe, transcribeBody, siteFail, h, errOutcome,
      update_progress_some] <;>
    norm_num [clamp, min_def, max_def]

/-! Numeric facts about the five possible delivery traces. -/

theorem traceFacts_ok :
    List.Chain' (· ≤ ·) [(1:ℚ)/10, 2/10, 3/10, 4/10, 5/10, 9/10, 1] ∧
    List.getLast? [(1:ℚ)/10, 2/10, 3/10, 4/10, 5/10, 9/10, 1] = some 1 ∧
    List.count (1:ℚ) [(1:ℚ)/10, 2/10, 3/10, 4/10, 5/10, 9/10, 1] = 1 ∧
    ∀ v ∈ [(1:ℚ)/10, 2/10, 3/10, 4/10, 5/10, 9/10, 1], 0 ≤ v ∧ v ≤ 1 := by
  refine ⟨?_, rfl, ?_, ?_⟩
  · simp [List.chain'_cons]; norm_num
  · simp [List.count_cons]; norm_num
  · intro v hv
    simp only [List.mem_cons, List.not_mem_nil, or_false] at hv
    rcases hv with rfl | rfl | rfl | rfl | rfl | rfl | rfl <;> norm_num

theorem traceFacts_fail2 :
    List.Chain' (· ≤ ·) [(1:ℚ)/10, 2/10, 1, 1] ∧
    List.getLast? [(1:ℚ)/10, 2/10, 1, 1] = some 1 ∧
    List.count (1:ℚ) [(1:ℚ)/10, 2/10, 1, 1] = 2 ∧
    ∀ v ∈ [(1:ℚ)/10, 2/10, 1, 1], 0 ≤ v ∧ v ≤ 1 := by
  refine ⟨?_, rfl, ?_, ?_⟩
  · simp [List.chain'_cons]; norm_num
  · simp [List.count_cons]; norm_num
  · intro v hv
    simp only [List.mem_cons, List.not_mem_nil, or_false] at hv
    rcases hv with rfl | rfl | rfl | rfl <;> norm_num

theorem traceFacts_fail3 :
    List.Chain' (· ≤ ·) [(1:ℚ)/10, 2/10, 3/10, 1, 1] ∧
    List.getLast? [(1:ℚ)/10, 2/10, 3/10, 1, 1] = some 1 ∧
    List.count (1:ℚ) [(1:ℚ)/10, 2/10, 3/10, 1, 1] = 2 ∧
    ∀ v ∈ [(1:ℚ)/10, 2/10, 3/10, 1, 1], 0 ≤ v ∧ v ≤ 1 := by
  refine ⟨?_, rfl, ?_, ?_⟩
  · simp [List.chain'_cons]; norm_num
  · simp [List.count_cons]; norm_num
  · intro v hv
    simp only [List.mem_cons, List.not_mem_nil, or_false] at hv
    rcases hv with rfl | rfl | rfl | rfl | rfl <;> norm_num

theorem traceFacts_fail4 :
    List.Chain' (· ≤ ·) [(1:ℚ)/10, 2/10, 3/10, 4/10, 1, 1] ∧
    List.getLast? [(1:ℚ)/10, 2/10, 3/10, 4/10, 1, 1] = some 1 ∧
    List.count (1:ℚ) [(1:ℚ)/10, 2/10, 3/10, 4/10, 1, 1] = 2 ∧
    ∀ v ∈ [(1:ℚ)/10, 2/10, 3/10, 4/10, 1, 1], 0 ≤ v ∧ v ≤ 1 := by
  refine ⟨?_, rfl, ?_, ?_⟩
  · simp [List.chain'_cons]; norm_num
  · simp [List.count_cons]; norm_num
  · intro v hv
    simp only [List.mem_cons, List.not_mem_nil, or_false] at hv
    rcases hv with rfl | rfl | rfl | rfl | rfl | rfl <;> norm_num

theorem traceFacts_fail5 :
    List.Chain' (· ≤ ·) [(1:ℚ)/10, 2/10, 3/10, 4/10, 5/10, 1, 1] ∧
    List.getLast? [(1:ℚ)/10, 2/10, 3/10, 4/10, 5/10, 1, 1] = some 1 ∧
    List.count (1:ℚ) [(1:ℚ)/10, 2/10, 3/10, 4/10, 5/10, 1, 1] = 2 ∧
    ∀ v ∈ [(1:ℚ)/10, 2/10, 3/10, 4/10, 5/10, 1, 1], 0 ≤ v ∧ v ≤ 1 := by
  refine ⟨?_, rfl, ?_, ?_⟩
  · simp [List.chain'_cons]; norm_num
  · simp [List.count_cons]; norm_num
  · intro v hv
    simp only [List.mem_cons, List.not_mem_nil, or_false] at hv
    rcases hv with rfl | rfl | rfl | rfl | rfl | rfl | rfl <;> norm_num

/-! ### Claims C2, C3, C9 -/

/-- C2 counterexample: in a run whose audio load raises
`FileNotFoundError`, the handler and the `finally` block each deliver 1.0,
so the delivered sequence contains the terminal value 1.0 twice — it does
not end with exactly one terminal value of 1.0 as the claim states. -/
theorem C2_counterexample :
    ¬ ((AudioTranscriber.transcribe
        { failAt := some (FailSite.loadAudio, FailKind.fileNotFound), resultText := "" }
        (some { raises := fun _ => false }) none).trace.count 1 = 1) := by
  rw [transcribe_eval_loadAudio _ _ _ _ rfl]
  show ¬ (List.count (1:ℚ) [(1:ℚ)/10, 2/10, 1, 1] = 1)
  have h2 := traceFacts_fail2.2.2.1
  omega

/-- C2 (amended): for every completed `transcribe` call with a registered
callback, the delivered progress sequence is monotonically non-decreasing
and terminates at 1.0; a normal successful return delivers the terminal
value 1.0 exactly once, while the missing-file and internal-failure paths
deliver it exactly twice (once from the exception handler, once from the
`finally` block). -/
theorem C2_progress_monotone_terminal (env : TranscribeEnv)
    (c : ProgressCallback) (lang : Option String) :
    ((AudioTranscriber.transcribe env (some c) lang).trace).Chain' (· ≤ ·) ∧
    ((AudioTranscriber.transcribe env (some c) lang).trace).getLast? = some 1 ∧
    ((∃ s, (AudioTranscriber.transcribe env (some c) lang).outcome = Except.ok (some s)) →
      ((AudioTranscriber.transcribe env (some c) lang).trace).count 1 = 1) ∧
    ((∀ s, (AudioTranscriber.transcribe env (some c) lang).outcome ≠ Except.ok (some s)) →
      ((AudioTranscriber.transcribe env (some c) lang).trace).count 1 = 2) := by
  rcases hf : env.failAt with _ | ⟨s, k⟩
  · rw [transcribe_eval_ok env c lang (by simp [hf])]
    exact ⟨traceFacts_ok.1, traceFacts_ok.2.1, fun _ => traceFacts_ok.2.2.1,
      fun hne => absurd rfl (hne env.resultText)⟩
  · cases s with
    | loadAudio =>
      rw [transcribe_eval_loadAudio env c lang k hf]
      cases k <;>
        exact ⟨traceFacts_fail2.1, traceFacts_fail2.2.1,
          fun ⟨s', hs'⟩ => by simp [errOutcome] at hs',
          fun _ => traceFacts_fail2.2.2.1⟩
    | padOrTrim =>
      rw [transcribe_eval_padOrTrim env c lang k hf]
      cases k <;>
        exact ⟨traceFacts_fail2.1, traceFacts_fail2.2.1,
          fun ⟨s', hs'⟩ => by simp [errOutcome] at hs',
          fun _ => traceFacts_fail2.2.2.1⟩
    | logMel =>
      rw [transcribe_eval_logMel env c lang k hf]
      cases k <;>
        exact ⟨traceFacts_fail3.1, traceFacts_fail3.2.1,
          fun ⟨s', hs'⟩ => by simp [errOutcome] at hs',
          fun _ => traceFacts_fail3.2.2.1⟩
    | detectLanguage =>
      cases lang with
      | none =>
        rw [transcribe_eval_detect env c k hf]
        cases k <;>
          exact ⟨traceFacts_fail4.1, traceFacts_fail4.2.1,
            fun ⟨s', hs'⟩ => by simp [errOutcome] at hs',
            fun _ => traceFacts_fail4.2.2.1⟩
      | some l =>
        rw [transcribe_eval_ok env c (some l) (by
          intro s' k' h'
          rw [hf] at h'
          simp only [Option.some.injEq, Prod.mk.injEq] at h'
          exact ⟨h'.1.symm, rfl⟩)]
        exact ⟨traceFacts_ok.1, traceFacts_ok.2.1, fun _ => traceFacts_ok.2.2.1,
          fun hne => absurd rfl (hne env.resultText)⟩
    | modelTranscribe =>
      rw [transcribe_eval_model env c lang k hf]
      cases k <;>
        exact ⟨traceFacts_fail5.1, traceFacts_fail5.2.1,
          fun ⟨s', hs'⟩ => by simp [errOutcome] at hs',
          fun _ => traceFacts_fail5.2.2.1⟩

/-- C2 witness: a successful run with a (faulty) registered callback
delivers the terminal value 1.0 exactly once. -/
theorem C2_witness :
    ((AudioTranscriber.transcribe { failAt := none, resultText := "hi" }
      (some { raises := fun _ => true }) none).trace).count 1 = 1 :=
  (C2_progress_monotone_terminal { failAt := none, resultText := "hi" }
      { raises := fun _ => true } none).2.2.1
    ⟨"hi", by rw [transcribe_eval_ok _ _ _ (by simp)]⟩

/-- C3: `transcribe` returns the absent result (`None`, no raise) exactly
when the failure it hits is a missing audio file, raises to its caller
exactly when it hits an internal failure of any other kind, and on both
failure paths the delivered progress trace terminates at 1.0 before
control returns. -/
theorem C3_error_contract (env : TranscribeEnv) (c : ProgressCallback)
    (lang : Option String) :
    ((AudioTranscriber.transcribe env (some c) lang).outcome = Except.ok none ↔
      activeFailKind env lang = some FailKind.fileNotFound) ∧
    ((∃ k, (AudioTranscriber.transcribe env (some c) lang).outcome = Except.error k) ↔
      activeFailKind env lang = some FailKind.other) ∧
    ((activeFailKind env lang).isSome = true →
      ((AudioTranscriber.transcribe env (some c) lang).trace).getLast? = some 1) := by
  rcases hf : env.failAt with _ | ⟨s, k⟩
  · rw [transcribe_eval_ok env c lang (by simp [hf])]
    exact ⟨by simp [activeFailKind, hf], by simp [activeFailKind, hf],
      fun h => by simp [activeFailKind, hf] at h⟩
  · cases s with
    | loadAudio =>
      rw [transcribe_eval_loadAudio env c lang k hf]
      cases k <;>
        exact ⟨by simp [activeFailKind, hf, errOutcome],
          by simp [activeFailKind, hf, errOutcome],
          fun _ => traceFacts_fail2.2.1⟩
    | padOrTrim =>
      rw [transcribe_eval_padOrTrim env c lang k hf]
      cases k <;>
        exact ⟨by simp [activeFailKind, hf, errOutcome],
          by simp [activeFailKind, hf, errOutcome],
          fun _ => traceFacts_fail2.2.1⟩
    | logMel =>
      rw [transcribe_eval_logMel env c lang k hf]
      cases k <;>
        exact ⟨by simp [activeFailKind, hf, errOutcome],
          by simp [activeFailKind, hf, errOutcome],
          fun _ => traceFacts_fail3.2.1⟩
    | detectLanguage =>
      cases lang with
      | none =>
        rw [transcribe_eval_detect env c k hf]
        cases k <;>
          exact ⟨by simp [activeFailKind, hf, errOutcome],
            by simp [activeFailKind, hf, errOutcome],
            fun _ => traceFacts_fail4.2.1⟩
      | some l =>
        rw [transcribe_eval_ok env c (some l) (by
          intro s' k' h'
          rw [hf] at h'
          simp only [Option.some.injEq, Prod.mk.injEq] at h'
          exact ⟨h'.1.symm, rfl⟩)]
        exact ⟨by simp [activeFailKind, hf], by simp [activeFailKind, hf],
          fun h => by simp [activeFailKind, hf] at h⟩
    | modelTranscribe =>
      rw [transcribe_eval_model env c lang k hf]
      cases k <;>
        exact ⟨by simp [activeFailKind, hf, errOutcome],
          by simp [activeFailKind, hf, errOutcome],
          fun _ => traceFacts_fail5.2.1⟩

/-- C3 witness: an internal (non-missing-file) failure run still ends its
delivered trace at 1.0 (and, by the theorem, raises to the caller). -/
theorem C3_witness :
    ((AudioTranscriber.transcribe
        { failAt := some (FailSite.modelTranscribe, FailKind.other), resultText := "" }
        (some { raises := fun _ => false }) none).trace).getLast? = some 1 :=
  (C3_error_contract
      { failAt := some (FailSite.modelTranscribe, FailKind.other), resultText := "" }
      { raises := fun _ => false } none).2.2 (by rfl)

/-- C9: a progress callback that raises is caught and logged inside
`_update_progress`: the whole `transcribe` result (outcome and delivered
trace) is identical to a run with a never-raising callback, and every
value delivered to the callback is clamped into [0, 1]. -/
theorem C9_callback_fault_isolated (env : TranscribeEnv)
    (c : ProgressCallback) (lang : Option String) :
    AudioTranscriber.transcribe env (some c) lang =
      AudioTranscriber.transcribe env (some { raises := fun _ => false }) lang ∧
    ∀ v ∈ (AudioTranscriber.transcribe env (some c) lang).trace,
      0 ≤ v ∧ v ≤ 1 := by
  rcases hf : env.failAt with _ | ⟨s, k⟩
  · rw [transcribe_eval_ok env c lang (by simp [hf]),
      transcribe_eval_ok env { raises := fun _ => false } lang (by simp [hf])]
    exact ⟨rfl, traceFacts_ok.2.2.2⟩
  · cases s with
    | loadAudio =>
      rw [transcribe_eval_loadAudio env c lang k hf,
        transcribe_eval_loadAudio env { raises := fun _ => false } lang k hf]
      exact ⟨rfl, traceFacts_fail2.2.2.2⟩
    | padOrTrim =>
      rw [transcribe_eval_padOrTrim env c lang k hf,
        transcribe_eval_padOrTrim env { raises := fun _ => false } lang k hf]
      exact ⟨rfl, traceFacts_fail2.2.2.2⟩
    | logMel =>
      rw [transcribe_eval_logMel env c lang k hf,
        transcribe_eval_logMel env { raises := fun _ => false } lang k hf]
      exact ⟨rfl, traceFacts_fail3.2.2.2⟩
    | detectLanguage =>
      cases lang with
      | none =>
        rw [transcribe_eval_detect env c k hf,
          transcribe_eval_detect env { raises := fun _ => false } k hf]
        exact ⟨rfl, traceFacts_fail4.2.2.2⟩
      | some l =>
        have hok : ∀ s' k', env.failAt = some (s', k') →
            s' = FailSite.detectLanguage ∧ (some l : Option String).isSome = true := by
          intro s' k' h'
          rw [hf] at h'
          simp only [Option.some.injEq, Prod.mk.injEq] at h'
          exact ⟨h'.1.symm, rfl⟩
        rw [transcribe_eval_ok env c (some l) hok,
          transcribe_eval_ok env { raises := fun _ => false } (some l) hok]
        exact ⟨rfl, traceFacts_ok.2.2.2⟩
    | modelTranscribe =>
      rw [transcribe_eval_model env c lang k hf,
        transcribe_eval_model env { raises := fun _ => false } lang k hf]
      exact ⟨rfl, traceFacts_fail5.2.2.2⟩

/-- C9 witness: with a callback that always raises, a delivered value is
still within [0, 1] (and, by the theorem, the run's result is unchanged). -/
theorem C9_witness : (0:ℚ) ≤ 1/10 ∧ (1:ℚ)/10 ≤ 1 :=
  (C9_callback_fault_isolated { failAt := none, resultText := "" }
      { raises := fun _ => true } none).2 (1/10)
    (by rw [transcribe_eval_ok _ _ _ (by simp)]; simp)

/-! ### The orchestrator (`main` of `src/app.py`)

One request run: upload, `save_uploaded_file`, then the `try` body
(transcription, transcript editing, extraction, optional question
answering) with the `finally` cleanup.  The filesystem slice tracks the
request's temporary file and directory; the event list records which
pipeline stages were invoked and with which texts. -/

/-- The request's temporary file (its byte content, when the file exists)
and its containing temporary directory. -/
structure FS where
  fileContent : Option (List Nat)
  dirExists : Bool
deriving DecidableEq

/-- Observable pipeline events of one request run. -/
inductive Event
  | transcribeCalled
  | extractCalled (text : String)
  | answerCalled (text : String) (question : String)
  | cleanupRan
deriving DecidableEq

/-- Black-box behaviour of one orchestrator run: the uploaded bytes
(`none` = no file uploaded), whether the temp-file write raises, the
transcriber environment, the user's edit of the transcript, the question
asked (`none` = no question submitted), whether the extraction stage
raises, and whether the cleanup block raises. -/
structure MainEnv where
  upload : Option (List Nat)
  saveRaises : Bool
  tenv : TranscribeEnv
  userEdit : String → String
  question : Option String
  extractRaises : Bool
  cleanupFails : Bool

/-- The Streamlit progress callback wired in `transcribe_audio`
(`progress_bar.progress` is clamped by the caller and does not raise in the
model). -/
def uiProgressCallback : ProgressCallback := { raises := fun _ => false }

/-- `transcribe_audio` of `src/app.py`: calls
`models["transcriber"].transcribe(audio_path)` with the UI callback set and
no pinned language; any exception is caught, logged and shown as an error
message, and `None` is returned. -/
def transcribe_audio (tenv : TranscribeEnv) : Option String :=
  match (AudioTranscriber.transcribe tenv (some uiProgressCallback) none).outcome with
  | Except.ok v => v
  | Except.error _ => none

/-- `save_uploaded_file` of `src/app.py`: create the temporary directory,
write the buffer to the temporary file inside it, and raise `ValueError`
when the resulting size is zero; any exception is caught, logged and shown,
and `None` is returned (the already-created directory — and file, on the
zero-size path — are left behind).  Returns the optional path token and the
filesystem slice after the call. -/
def save_uploaded_file (buffer : List Nat) (writeRaises : Bool) :
    Option Unit × FS :=
  if writeRaises then (none, { fileContent := none, dirExists := true })
  else if buffer.length = 0 then
    (none, { fileContent := some buffer, dirExists := true })
  else (some (), { fileContent := some buffer, dirExists := true })

/-- The cleanup of the `finally` block of `main`: `os.unlink` the file if
it exists, then `os.rmdir` its directory; any exception is caught and
logged only, never re-raised. -/
def cleanup (fs : FS) (cleanupFails : Bool) : FS :=
  if cleanupFails then fs
  else if fs.fileContent.isSome then { fileContent := none, dirExists := false }
  else fs

/-- The `try` body of `main` past a successful save, as the list of stage
events and whether an exception escapes the body: transcription (aborting
on a falsy result — `None` or the empty string), the transcript editor,
extraction on the current edited text, and the optional question answered
on that same edited text.

Modelled from the spec: the function `extract_information` called at this
point of `src/app.py` is defined nowhere in the repository; following the
specification ("whatever text is current at extraction time (original or
edited) is what gets extracted"), it invokes the entity extractor on the
current edited text, and a failure of the underlying model propagates
unhandled. -/
def pipelineBody (tenv : TranscribeEnv) (userEdit : String → String)
    (extractRaises : Bool) (question : Option String) : List Event × Bool :=
  match transcribe_audio tenv with
  | none => ([Event.transcribeCalled], false)
  | some t =>
    if t = "" then ([Event.transcribeCalled], false)
    else
      let edited := userEdit t
      if extractRaises then
        ([Event.transcribeCalled, Event.extractCalled edited], true)
      else
        match question with
        | none => ([Event.transcribeCalled, Event.extractCalled edited], false)
        | some q =>
          ([Event.transcribeCalled, Event.extractCalled edited,
            Event.answerCalled edited q], false)

/-- Result of one `main` run: the final filesystem slice, the stage events,
and whether an exception propagates out of `main`. -/
structure MainResult where
  fs : FS
  events : List Event
  raised : Bool

/-- `main` of `src/app.py` for one request: upload, save (returning before
the `try` block on a failed save), then the `try` body with the `finally`
cleanup on every exit path out of the body. -/
def main (env : MainEnv) : MainResult :=
  match env.upload with
  | none =>
    { fs := { fileContent := none, dirExists := false }, events := [], raised := false }
  | some buffer =>
    match save_uploaded_file buffer env.saveRaises with
    | (none, fs) => { fs := fs, events := [], raised := false }
    | (some _, fs) =>
      let pb := pipelineBody env.tenv env.userEdit env.extractRaises env.question
      { fs := cleanup fs env.cleanupFails,
        events := pb.1 ++ [Event.cleanupRan], raised := pb.2 }

/-! Evaluation helpers for `main`. -/

theorem save_isSome_iff (buffer : List Nat) (w : Bool) :
    (save_uploaded_file buffer w).1.isSome = true ↔
      w = false ∧ ¬ buffer.length = 0 := by
  cases w <;> by_cases hb : buffer.length = 0 <;> simp [save_uploaded_file, hb]

theorem main_eval_saved (env : MainEnv) (buffer : List Nat)
    (hup : env.upload = some buffer) (hw : env.saveRaises = false)
    (hb : ¬ buffer.length = 0) :
    main env =
      { fs := cleanup { fileContent := some buffer, dirExists := true } env.cleanupFails,
        events := (pipelineBody env.tenv env.userEdit env.extractRaises env.question).1
          ++ [Event.cleanupRan],
        raised := (pipelineBody env.tenv env.userEdit env.extractRaises env.question).2 } := by
  simp [main, hup, hw, save_uploaded_file, hb]

/-! ### Claims C1, C5, C7, C10 -/

/-- C1: in every run that reaches the `FileSaved` state, the `finally`
cleanup runs on every exit path — normal completion, handled failure, or an
unhandled exception from a later stage — and (when the deletions themselves
do not fail) the temporary file and its directory no longer exist
afterwards; a failure inside the cleanup block is logged only: it changes
neither the run's outward exception behaviour nor its events. -/
theorem C1_cleanup_every_exit_path (env : MainEnv) (buffer : List Nat)
    (hup : env.upload = some buffer)
    (hsaved : (save_uploaded_file buffer env.saveRaises).1.isSome = true)
    (hcf : env.cleanupFails = false) :
    (main env).fs.fileContent = none ∧
    (main env).fs.dirExists = false ∧
    Event.cleanupRan ∈ (main env).events ∧
    (main { env with cleanupFails := true }).raised = (main env).raised ∧
    (main { env with cleanupFails := true }).events = (main env).events := by
  obtain ⟨hw, hb⟩ := (save_isSome_iff buffer env.saveRaises).mp hsaved
  rw [main_eval_saved env buffer hup hw hb,
    main_eval_saved { env with cleanupFails := true } buffer hup hw hb]
  exact ⟨by simp [cleanup, hcf], by simp [cleanup, hcf], by simp, rfl, rfl⟩

/-- C1 witness: a full successful run (transcription, extraction, one
question) leaves neither the temporary file nor its directory behind, runs
cleanup, and an injected cleanup failure is not surfaced. -/
theorem C1_witness :
    (main { upload := some [7, 7], saveRaises := false,
            tenv := { failAt := none, resultText := "hello" },
            userEdit := fun s => s, question := some "q",
            extractRaises := false, cleanupFails := false }).fs.fileContent = none ∧
    (main { upload := some [7, 7], saveRaises := false,
            tenv := { failAt := none, resultText := "hello" },
            userEdit := fun s => s, question := some "q",
            extractRaises := false, cleanupFails := false }).fs.dirExists = false ∧
    Event.cleanupRan ∈
      (main { upload := some [7, 7], saveRaises := false,
              tenv := { failAt := none, resultText := "hello" },
              userEdit := fun s => s, question := some "q",
              extractRaises := false, cleanupFails := false }).events ∧
    (main { upload := some [7, 7], saveRaises := false,
            tenv := { failAt := none, resultText := "hello" },
            userEdit := fun s => s, question := some "q",
            extractRaises := false, cleanupFails := true }).raised =
      (main { upload := some [7, 7], saveRaises := false,
              tenv := { failAt := none, resultText := "hello" },
              userEdit := fun s => s, question := some "q",
              extractRaises := false, cleanupFails := false }).raised ∧
    (main { upload := some [7, 7], saveRaises := false,
            tenv := { failAt := none, resultText := "hello" },
            userEdit := fun s => s, question := some "q",
            extractRaises := false, cleanupFails := true }).events =
      (main { upload := some [7, 7], saveRaises := false,
              tenv := { failAt := none, resultText := "hello" },
              userEdit := fun s => s, question := some "q",
              extractRaises := false, cleanupFails := false }).events :=
  C1_cleanup_every_exit_path
    { upload := some [7, 7], saveRaises := false,
      tenv := { failAt := none, resultText := "hello" },
      userEdit := fun s => s, question := some "q",
      extractRaises := false, cleanupFails := false }
    [7, 7] rfl rfl rfl

/-- C5: saving a non-empty buffer produces the temporary file with exactly
the buffer as content — so its size equals the buffer's length — and
returns its path; saving an empty buffer signals failure (returns no path),
and in a run whose upload is empty no downstream pipeline stage
(transcription, extraction, question answering) executes. -/
theorem C5_save_validation (buffer : List Nat) (w : Bool) (env : MainEnv) :
    (¬ buffer = [] →
      (save_uploaded_file buffer false).1.isSome = true ∧
      (save_uploaded_file buffer false).2.fileContent = some buffer ∧
      (save_uploaded_file buffer false).2.fileContent.map List.length =
        some buffer.length) ∧
    (save_uploaded_file [] w).1 = none ∧
    (env.upload = some [] → (main env).events = []) := by
  refine ⟨fun hb => ?_, ?_, fun hup => ?_⟩
  · have hb' : ¬ buffer.length = 0 := by
      simpa [List.length_eq_zero] using hb
    simp [save_uploaded_file, hb']
  · cases w <;> simp [save_uploaded_file]
  · cases hw : env.saveRaises <;> simp [main, hup, hw, save_uploaded_file]

/-- C5 witness: a two-byte buffer is saved with content of length two and a
path is returned; a run uploading an empty buffer executes no pipeline
stage. -/
theorem C5_witness :
    ((save_uploaded_file [7, 7] false).1.isSome = true ∧
      (save_uploaded_file [7, 7] false).2.fileContent = some [7, 7] ∧
      (save_uploaded_file [7, 7] false).2.fileContent.map List.length = some 2) ∧
    (main { upload := some [], saveRaises := false,
            tenv := { failAt := none, resultText := "hello" },
            userEdit := fun s => s, question := none,
            extractRaises := false, cleanupFails := false }).events = [] :=
  ⟨(C5_save_validation [7, 7] false
      { upload := some [], saveRaises := false,
        tenv := { failAt := none, resultText := "hello" },
        userEdit := fun s => s, question := none,
        extractRaises := false, cleanupFails := false }).1 (by decide),
   (C5_save_validation [7, 7] false
      { upload := some [], saveRaises := false,
        tenv := { failAt := none, resultText := "hello" },
        userEdit := fun s => s, question := none,
        extractRaises := false, cleanupFails := false }).2.2 rfl⟩

/-- C7: in every run that reaches the `Transcribed` state, the current
edited text is what is passed to entity extraction, and that same edited
text is the only text ever passed to question answering in that run. -/
theorem C7_edited_text_is_current (env : MainEnv) (buffer : List Nat)
    (t : String)
    (hup : env.upload = some buffer)
    (hsaved : (save_uploaded_file buffer env.saveRaises).1.isSome = true)
    (ht : transcribe_audio env.tenv = some t) (hne : ¬ t = "") :
    Event.extractCalled (env.userEdit t) ∈ (main env).events ∧
    (∀ s, Event.extractCalled s ∈ (main env).events → s = env.userEdit t) ∧
    (∀ s q, Event.answerCalled s q ∈ (main env).events → s = env.userEdit t) := by
  obtain ⟨hw, hb⟩ := (save_isSome_iff buffer env.saveRaises).mp hsaved
  rw [main_eval_saved env buffer hup hw hb]
  cases hex : env.extractRaises with
  | true => simp [pipelineBody, ht, hne, hex]
  | false =>
    cases hq : env.question with
    | none => simp [pipelineBody, ht, hne, hex, hq]
    | some q => simp [pipelineBody, ht, hne, hex, hq]

/-- C7 witness: a run with an edited transcript extracts exactly the edited
text. -/
theorem C7_witness :
    Event.extractCalled ((fun s => s ++ "!") "hello") ∈
      (main { upload := some [7], saveRaises := false,
              tenv := { failAt := none, resultText := "hello" },
              userEdit := fun s => s ++ "!", question := some "q",
              extractRaises := false, cleanupFails := false }).events :=
  (C7_edited_text_is_current
    { upload := some [7], saveRaises := false,
      tenv := { failAt := none, resultText := "hello" },
      userEdit := fun s => s ++ "!", question := some "q",
      extractRaises := false, cleanupFails := false }
    [7] "hello" rfl rfl rfl (by decide)).1

/-- C10: a run whose transcription completes without error but yields an
empty transcript aborts exactly as a failed transcription does — the
pipeline body produces the same events and exception behaviour in both
cases: no extraction and no question answering run, while the cleanup still
removes the temporary file and directory. -/
theorem C10_empty_transcript_aborts (env : MainEnv) (buffer : List Nat)
    (htext : transcribe_audio env.tenv = some "" ∨ transcribe_audio env.tenv = none)
    (hup : env.upload = some buffer)
    (hsaved : (save_uploaded_file buffer env.saveRaises).1.isSome = true)
    (hcf : env.cleanupFails = false) :
    pipelineBody env.tenv env.userEdit env.extractRaises env.question =
      ([Event.transcribeCalled], false) ∧
    (main env).events = [Event.transcribeCalled, Event.cleanupRan] ∧
    (∀ t, Event.extractCalled t ∉ (main env).events) ∧
    (∀ t q, Event.answerCalled t q ∉ (main env).events) ∧
    (main env).fs.fileContent = none ∧ (main env).fs.dirExists = false := by
  obtain ⟨hw, hb⟩ := (save_isSome_iff buffer env.saveRaises).mp hsaved
  have hpb : pipelineBody env.tenv env.userEdit env.extractRaises env.question =
      ([Event.transcribeCalled], false) := by
    rcases htext with h | h <;> simp [pipelineBody, h]
  rw [main_eval_saved env buffer hup hw hb, hpb]
  refine ⟨rfl, rfl, fun t => by simp, fun t q => by simp,
    by simp [cleanup, hcf], by simp [cleanup, hcf]⟩

/-- C10 witness: a run with an empty transcript runs only transcription and
cleanup. -/
theorem C10_witness :
    (main { upload := some [7], saveRaises := false,
            tenv := { failAt := none, resultText := "" },
            userEdit := fun s => s, question := none,
            extractRaises := false, cleanupFails := false }).events =
      [Event.transcribeCalled, Event.cleanupRan] :=
  (C10_empty_transcript_aborts
    { upload := some [7], saveRaises := false,
      tenv := { failAt := none, resultText := "" },
      userEdit := fun s => s, question := none,
      extractRaises := false, cleanupFails := false }
    [7] (Or.inl rfl) rfl rfl rfl).2.1

end SpeechAnalyzer
